import Mathlib

/-!
# Shallow embedding of the `@sillvva/search` query parser (`src/index.ts`)

This file embeds the core parsing pipeline of the `QueryParser` class:
string normalization → tokenization → recursive-descent tree construction →
condition extraction, as implemented in `src/index.ts`.

Modelling conventions:
* JS strings are Lean `String`s (scanning works on `List Char`).
* JS numbers produced by `parseFloat` on `-?\d+(\.\d+)?` literals are modelled
  as exact rationals `ℚ` (the decimal literals in scope are represented
  exactly; no IEEE rounding is modelled).
* JS `Date` values are modelled as milliseconds since the Unix epoch (`Int`).
  Date-time strings without a timezone offset, which JS interprets in the
  local timezone of the host, are interpreted with the host timezone fixed to UTC.
* The single global regular expression of the tokenizer (an ordered alternation of
  seven category patterns, executed repeatedly with `exec`) is embedded as a
  scanner that, at each character position from left to right, tries the seven
  alternatives in the same order and commits to the first that matches,
  reproducing the greedy/backtracking behaviour of each alternative.
* TS optional boolean fields (`negated?: boolean`) are modelled as `Bool`
  with `undefined` collapsed to `false` (the code only ever reads them
  through truthiness tests or `=== true`).
* `metadata.parseTime` (wall-clock timing) is omitted.
-/

/-- Embeds `LOGICAL_OPERATORS = ["AND", "OR", "&", "|"]` (src/index.ts line 25).
`amp` stands for the spelling `"&"` and `pipe` for `"|"`. -/
inductive LogicalOperator where
  | AND
  | OR
  | amp
  | pipe
deriving DecidableEq

/-- Embeds `isLogicalOperator` (src/index.ts line 28): matches a string against the
four operator spellings, returning the recognized operator. -/
def strToLogical (s : String) : Option LogicalOperator :=
  if s = "AND" then some .AND
  else if s = "OR" then some .OR
  else if s = "&" then some .amp
  else if s = "|" then some .pipe
  else none

/-- Embeds `NumericOperator` (src/index.ts line 33): `"=" | ">" | "<" | ">=" | "<="`. -/
inductive NumericOperator where
  | eq
  | gt
  | lt
  | ge
  | le
deriving DecidableEq

/-- Embeds `ConditionToken` (src/index.ts line 52): the token kinds that become
condition leaves. -/
inductive ConditionToken where
  | keyword
  | keyword_phrase
  | keyword_regex
  | keyword_numeric
  | keyword_date
  | word
  | phrase
  | regex
deriving DecidableEq

/-- The value carried by a condition: `string | number | Date` in the source.
Numbers are exact rationals; dates are epoch milliseconds. -/
inductive QueryValue where
  | str (s : String)
  | num (q : ℚ)
  | date (ms : Int)
deriving DecidableEq

/-- JS truthiness of a `string | number | Date` value, as used by
the `if (ast.value)` test of `extractConditions` (src/index.ts line 666):
`""` and `0` are falsy; `Date` objects are always truthy.
(`NaN`, the only other falsy number, cannot be represented in `ℚ` and cannot
reach a condition node: every `parseFloat` result is guarded by `isNaN`.) -/
def isTruthy : QueryValue → Bool
  | .str s => s ≠ ""
  | .num q => q ≠ 0
  | .date _ => true

/-- Embeds `Token` (src/index.ts lines 38-50). Every constructor carries the source
character offset `position` in the normalized string as its last field. -/
inductive Token where
  | keyword (key : String) (value : String) (position : Nat)
  | keyword_phrase (key : String) (value : String) (position : Nat)
  | keyword_regex (key : String) (value : String) (position : Nat)
  | keyword_numeric (key : String) (operator : NumericOperator) (value : ℚ) (position : Nat)
  | keyword_date (key : String) (operator : NumericOperator) (value : Int) (position : Nat)
  | word (value : String) (position : Nat)
  | phrase (value : String) (position : Nat)
  | regex (value : String) (position : Nat)
  | operator (value : LogicalOperator) (position : Nat)
  | open_paren (negated : Bool) (position : Nat)
  | close_paren (position : Nat)
  | negation (position : Nat)
deriving DecidableEq

/-- Embeds `ASTNode` (src/index.ts lines 57-81): a binary node or a condition node.
The optional TS fields `negated?` and `operator?`/`key?` are modelled as
`Bool` (default `false`) and `Option` fields. -/
inductive ASTNode where
  | binary (operator : LogicalOperator) (left right : ASTNode) (negated : Bool)
  | condition (token : ConditionToken) (key : Option String) (value : QueryValue)
      (position : Nat) (negated : Bool) (operator : Option NumericOperator)
deriving DecidableEq

/-- The `negated` flag of either node kind (`ast.negated === true`). -/
def ASTNode.negatedB : ASTNode → Bool
  | .binary _ _ _ n => n
  | .condition _ _ _ _ n _ => n

/-- The mutation `node.negated = true` performed by `parseTerm`
(src/index.ts lines 603 and 611). -/
def ASTNode.withNegated : ASTNode → ASTNode
  | .binary op l r _ => .binary op l r true
  | .condition t k v p _ o => .condition t k v p true o

/-- Embeds `ASTCondition` (src/index.ts lines 86-103): flattened leaf view. -/
structure ASTCondition where
  key : Option String
  value : QueryValue
  position : Nat
  isNegated : Bool
  isRegex : Bool
  isNumeric : Bool
  isDate : Bool
  operator : Option NumericOperator
deriving DecidableEq

/-- The two `ParseError` kinds (src/index.ts line 123): `synErr` stands for
the literal string `"syntax"` and `invalidKey` for `"invalid_key"`. -/
inductive ErrKind where
  | synErr
  | invalidKey
deriving DecidableEq

/-- Embeds `ParseError` (src/index.ts lines 119-140). -/
structure ParseError where
  kind : ErrKind
  message : String
  position : Nat
  key : Option String
  value : Option String
deriving DecidableEq

/-- Embeds `ParseMetadata` (src/index.ts lines 142-159) minus the wall-clock
`parseTime` field. -/
structure ParseMetadata where
  originalQuery : String
  hasErrors : Bool
  errors : List ParseError
deriving DecidableEq

/-- Embeds `ParseResult` (src/index.ts lines 161-178). -/
structure ParseResult where
  tokens : List Token
  ast : Option ASTNode
  astConditions : List ASTCondition
  metadata : ParseMetadata
deriving DecidableEq

/-- Embeds `QueryParserOptions` (src/index.ts lines 108-117). -/
structure QueryParserOptions where
  validKeys : Option (List String)
  defaultKey : Option String
deriving DecidableEq

/-! ## Normalizer (`normalizeQuery`, src/index.ts lines 684-692) -/

/-- The whitespace class `\s` restricted to the ASCII range (the inputs in
scope contain no exotic Unicode whitespace). -/
def isSpaceChar (c : Char) : Bool :=
  c = ' ' ∨ c = '\t' ∨ c = '\n' ∨ c = '\r' ∨ c = '\x0b' ∨ c = '\x0c'

/-- Embeds `str.replace(/\s+/g, " ")`: collapse every whitespace run to one space.
`prevSpace` records whether the previous character belonged to a run. -/
def collapseSpacesAux : List Char → Bool → List Char
  | [], _ => []
  | c :: rest, prevSpace =>
    if isSpaceChar c then
      if prevSpace then collapseSpacesAux rest true
      else ' ' :: collapseSpacesAux rest true
    else c :: collapseSpacesAux rest false

/-- Embeds `.trim()` after the collapse: drop leading/trailing spaces (after the
collapse the only whitespace left is `' '`). -/
def trimSpaces (cs : List Char) : List Char :=
  ((cs.dropWhile (· = ' ')).reverse.dropWhile (· = ' ')).reverse

/-- Embeds `normalizeQuery` (src/index.ts lines 684-692): collapse whitespace runs to
single spaces, then trim. -/
def normalizeQuery (s : String) : String :=
  String.mk (trimSpaces (collapseSpacesAux s.data false))

/-! ## JS `Date` model: epoch milliseconds, proleptic Gregorian (UTC) -/

/-- Days from 1970-01-01 to civil date `(y, m, d)` (proleptic Gregorian,
floor-division formulation; `m` may exceed 12 and `d` may exceed the month
length, both overflowing linearly exactly as the ECMAScript `MakeDay` operation does). -/
def daysFromCivil (y m d : Int) : Int :=
  let yy : Int := if m ≤ 2 then y - 1 else y
  let era : Int := Int.fdiv yy 400
  let yoe : Int := yy - era * 400
  let mp : Int := Int.emod (m + 9) 12
  let doy : Int := Int.fdiv (153 * mp + 2) 5 + d - 1
  let doe : Int := yoe * 365 + Int.fdiv yoe 4 - Int.fdiv yoe 100 + doy
  era * 146097 + doe - 719468

/-- Civil date `(y, m, d)` of a day count relative to 1970-01-01. -/
def civilFromDays (z0 : Int) : Int × Int × Int :=
  let z : Int := z0 + 719468
  let era : Int := Int.fdiv z 146097
  let doe : Int := z - era * 146097
  let yoe : Int :=
    Int.fdiv (doe - Int.fdiv doe 1460 + Int.fdiv doe 36524 - Int.fdiv doe 146096) 365
  let y : Int := yoe + era * 400
  let doy : Int := doe - (365 * yoe + Int.fdiv yoe 4 - Int.fdiv yoe 100)
  let mp : Int := Int.fdiv (5 * doy + 2) 153
  let d : Int := doy - Int.fdiv (153 * mp + 2) 5 + 1
  let m : Int := if mp < 10 then mp + 3 else mp - 9
  (if m ≤ 2 then y + 1 else y, m, d)

/-- Milliseconds per day. -/
def msPerDay : Int := 86400000

/-- Embeds `date.setMilliseconds(-1)` on a `Date` holding `t` epoch ms: the
milliseconds-of-second field (timezone-invariant) is replaced by `-1`,
i.e. the result is `t - (t mod 1000) - 1`. -/
def jsSetMillisecondsNeg1 (t : Int) : Int :=
  t - Int.emod t 1000 - 1

/-- Embeds `end.setUTCDate(end.getUTCDate() + 1)`: re-make the day field with the
current day-of-month plus one (day arithmetic is linear, so this adds one
day). -/
def jsSetUTCDateSucc (t : Int) : Int :=
  let days := Int.fdiv t msPerDay
  let msOfDay := Int.emod t msPerDay
  match civilFromDays days with
  | (y, m, d) => daysFromCivil y m (d + 1) * msPerDay + msOfDay

/-- Embeds `end.setUTCMonth(end.getUTCMonth() + 1)`: re-make the day field with the
month index advanced by one (month 13 of year `y` is January of `y + 1`,
exactly as `MakeDay` normalizes). -/
def jsSetUTCMonthSucc (t : Int) : Int :=
  let days := Int.fdiv t msPerDay
  let msOfDay := Int.emod t msPerDay
  match civilFromDays days with
  | (y, m, d) => daysFromCivil y (m + 1) d * msPerDay + msOfDay

/-- Embeds `end.setUTCFullYear(end.getUTCFullYear() + 1)`. -/
def jsSetUTCFullYearSucc (t : Int) : Int :=
  let days := Int.fdiv t msPerDay
  let msOfDay := Int.emod t msPerDay
  match civilFromDays days with
  | (y, m, d) => daysFromCivil (y + 1) m d * msPerDay + msOfDay

/-! ## Character-level helpers for the scanner -/

/-- JS `\w`: `[A-Za-z0-9_]`. -/
def isWordChar (c : Char) : Bool :=
  c.isAlpha ∨ c.isDigit ∨ c = '_'

/-- Numeric value of a digit run (most significant first). -/
def digitsToNat (cs : List Char) : Nat :=
  cs.foldl (fun acc c => acc * 10 + (c.toNat - '0'.toNat)) 0

/-- Take exactly `n` decimal digits off the front, or fail. -/
def takeExactDigits : Nat → List Char → Option (List Char × List Char)
  | 0, cs => some ([], cs)
  | _ + 1, [] =>
    -- n+1 digits demanded, none left
    none
  | n + 1, c :: rest =>
    if c.isDigit then
      match takeExactDigits n rest with
      | some (ds, rest2) => some (c :: ds, rest2)
      | none => none
    else none

/-! ## `new Date(string)` on the literal shapes produced by the tokenizer

The strings reaching `new Date` are matched by `dateTimeRegex`
(`\d{4}-\d{2}-\d{2}` with optional `[T ]\d{2}:\d{2}(:\d{2}(\.\d+)?)?`
and optional `Z|[+-]\d{2}:\d{2}`), `monthRegex` (`\d{4}-\d{2}`) or
`yearRegex` (`\d{4}`).  Shapes with out-of-range fields (month 13, day 32,
Feb 30, hour 25, …) are rejected by the JS date parser and yield an invalid
date (`NaN`), modelled as `none`.  Date-times without an offset, local time
in JS, are interpreted with the host timezone fixed to UTC. -/

/-- Days in month `m` of year `y` (Gregorian). -/
def daysInMonth (y m : Nat) : Nat :=
  if m = 2 then
    if y % 4 = 0 ∧ (y % 100 ≠ 0 ∨ y % 400 = 0) then 29 else 28
  else if m = 4 ∨ m = 6 ∨ m = 9 ∨ m = 11 then 30
  else 31

/-- The millisecond value of a fraction digit run: the first three digits,
right-padded with zeros (`.5` is 500 ms, `.123456` truncates to 123 ms). -/
def fracToMs (ds : List Char) : Nat :=
  match ds with
  | [] => 0
  | [a] => (a.toNat - '0'.toNat) * 100
  | [a, b] => (a.toNat - '0'.toNat) * 100 + (b.toNat - '0'.toNat) * 10
  | a :: b :: c :: _ =>
    (a.toNat - '0'.toNat) * 100 + (b.toNat - '0'.toNat) * 10 + (c.toNat - '0'.toNat)

/-- Parse the optional trailing timezone: `Z` or `[+-]\d{2}:\d{2}`.
Returns the offset in minutes (to be subtracted) and requires the string to
end afterwards. `none` result means "no offset present" was also impossible:
the caller distinguishes the empty remainder. -/
def parseTimeZoneTail (cs : List Char) : Option Int :=
  match cs with
  | [] => some 0
  | ['Z'] => some 0
  | c :: rest =>
    if c = '+' ∨ c = '-' then
      match takeExactDigits 2 rest with
      | some (hh, ':' :: rest2) =>
        match takeExactDigits 2 rest2 with
        | some (mm, []) =>
          let off : Int := (digitsToNat hh : Int) * 60 + (digitsToNat mm : Int)
          if digitsToNat hh ≤ 23 ∧ digitsToNat mm ≤ 59 then
            some (if c = '-' then -off else off)
          else none
        | _ => none
      | _ => none
    else none

/-- Parse the time-of-day part `\d{2}:\d{2}(:\d{2}(\.\d+)?)?` plus optional
timezone, the whole remainder of a date-time literal.  Returns epoch-ms
offset within the day minus the timezone offset. -/
def parseTimeOfDay (cs : List Char) : Option Int :=
  match takeExactDigits 2 cs with
  | some (hh, ':' :: rest1) =>
    (match takeExactDigits 2 rest1 with
     | some (mi, rest2) =>
       let h := digitsToNat hh
       let mn := digitsToNat mi
       if h ≤ 23 ∧ mn ≤ 59 then
         (match rest2 with
          | ':' :: rest3 =>
            (match takeExactDigits 2 rest3 with
             | some (ss, rest4) =>
               let s := digitsToNat ss
               if s ≤ 59 then
                 (match rest4 with
                  | '.' :: rest5 =>
                    let frac := rest5.takeWhile Char.isDigit
                    let rest6 := rest5.dropWhile Char.isDigit
                    if frac = [] then none
                    else
                      (match parseTimeZoneTail rest6 with
                       | some off =>
                         some ((h : Int) * 3600000 + (mn : Int) * 60000 +
                               (s : Int) * 1000 + (fracToMs frac : Int) - off * 60000)
                       | none => none)
                  | _ =>
                    (match parseTimeZoneTail rest4 with
                     | some off =>
                       some ((h : Int) * 3600000 + (mn : Int) * 60000 +
                             (s : Int) * 1000 - off * 60000)
                     | none => none))
               else none
             | _ => none)
          | _ =>
            (match parseTimeZoneTail rest2 with
             | some off => some ((h : Int) * 3600000 + (mn : Int) * 60000 - off * 60000)
             | none => none))
       else none
     | _ => none)
  | _ => none

/-- Embeds `new Date(s)` for the year / month / date / date-time literal shapes,
returning epoch milliseconds, or `none` for an invalid date (`NaN`). -/
def jsNewDate (s : String) : Option Int :=
  match takeExactDigits 4 s.data with
  | some (ys, rest) =>
    let y := digitsToNat ys
    (match rest with
     | [] => some (daysFromCivil (y : Int) 1 1 * msPerDay)
     | '-' :: rest1 =>
       (match takeExactDigits 2 rest1 with
        | some (ms', rest2) =>
          let m := digitsToNat ms'
          if 1 ≤ m ∧ m ≤ 12 then
            (match rest2 with
             | [] => some (daysFromCivil (y : Int) (m : Int) 1 * msPerDay)
             | '-' :: rest3 =>
               (match takeExactDigits 2 rest3 with
                | some (ds, rest4) =>
                  let d := digitsToNat ds
                  if 1 ≤ d ∧ d ≤ daysInMonth y m then
                    (match rest4 with
                     | [] => some (daysFromCivil (y : Int) (m : Int) (d : Int) * msPerDay)
                     | sep :: rest5 =>
                       if sep = 'T' ∨ sep = ' ' then
                         (match parseTimeOfDay rest5 with
                          | some ofs =>
                            some (daysFromCivil (y : Int) (m : Int) (d : Int) * msPerDay + ofs)
                          | none => none)
                       else none)
                  else none
                | _ => none)
             | _ => none)
          else none
        | _ => none)
     | _ => none)
  | _ => none

/-! ## `parseFloat` on `-?\d+(\.\d+)?` literals, as exact rationals -/

/-- Embeds `parseFloat(s)` for the numeric-literal shapes matched by `numberRegex`;
the value `± (intDigits.fracDigits)` is the exact rational
`± (intDigits·10^k + fracDigits) / 10^k`.  `none` models `NaN` (unreachable
for regex-matched input, mirroring the `isNaN` guards). -/
def parseNum (s : String) : Option ℚ :=
  let (neg, cs) :=
    match s.data with
    | '-' :: rest => (true, rest)
    | cs => (false, cs)
  let intPart := cs.takeWhile Char.isDigit
  let rest := cs.dropWhile Char.isDigit
  if intPart = [] then none
  else
    let withFrac : Nat → Nat → Option ℚ := fun fracVal fracLen =>
      let mag : Int := (digitsToNat intPart * 10 ^ fracLen + fracVal : Nat)
      some (mkRat (if neg then -mag else mag) (10 ^ fracLen))
    match rest with
    | [] => withFrac 0 0
    | '.' :: fracPart =>
      if fracPart ≠ [] ∧ fracPart.all Char.isDigit then
        withFrac (digitsToNat fracPart) fracPart.length
      else none
    | _ => none

/-! ## The tokenizer regular expression as an ordered-alternative scanner

The source builds one global regex as the alternation (in this order) of:
1. `(?: |^)?(-?\()|(\))`      — group open / close
2. `(?: |^)([-!])`            — standalone negation
3. `(\w+)(?::|=)(?:dateRange|monthRange|yearRange|numberRange)`
4. `(\w+)(:|=|>=|<=|>|<)(?:dateTime|month|year|number)`
5. `(?:(\w+):)?(?:(\w+|[&|])|"([^"]+)"|\/([^\/]+)\/)`
6. `([^\s]+)`                 — fallback, reported as a syntax error
and repeatedly `exec`s it: the leftmost matching position wins, and at a
given position the first alternative that matches wins.  Each alternative is
embedded below as a deterministic matcher; the only backtracking the regex
engine can perform inside one alternative that changes its outcome is the
optional-key fallback in alternative 5, which is modelled explicitly. -/

/-- The operator capture of alternative 4: `(:|=|>=|<=|>|<)`. -/
inductive CmpOp where
  | colon
  | eqS
  | gtS
  | ltS
  | geS
  | leS
deriving DecidableEq

/-- Embeds `operator === ":" ? "=" : operator` (src/index.ts lines 437 and 457). -/
def cmpToNumeric : CmpOp → NumericOperator
  | .colon => .eq
  | .eqS => .eq
  | .gtS => .gt
  | .ltS => .lt
  | .geS => .ge
  | .leS => .le

/-- Which range alternative matched in alternative 3, with the two captured
literal strings (`date1/date2`, `month1/month2`, `year1/year2`,
`numeric1/numeric2`). -/
inductive RangeVal where
  | dateR (d1 d2 : String)
  | monthR (m1 m2 : String)
  | yearR (y1 y2 : String)
  | numR (n1 n2 : String)
deriving DecidableEq

/-- Which value alternative matched in alternative 4 (`dateValue`,
`monthValue`, `yearValue`, `numericValue`). -/
inductive CompVal where
  | dateV (s : String)
  | monthV (s : String)
  | yearV (s : String)
  | numV (s : String)
deriving DecidableEq

/-- The text captures of alternative 5: `value` (a word or `&`/`|`),
`quote` (a quoted phrase body) or `regex` (a slash-delimited body). -/
inductive TextVal where
  | wordV (s : String)
  | quoteV (s : String)
  | regexV (s : String)
deriving DecidableEq

/-- One `exec` match, identified by which capture groups are set. -/
inductive RawMatch where
  | gOpen (capture : String)
  | gClose
  | negMark
  | rangeM (key : String) (rv : RangeVal)
  | compM (key : String) (op : CmpOp) (cv : CompVal)
  | textM (key : Option String) (tv : TextVal)
  | otherM (value : String)
deriving DecidableEq

/-- The `-?\(` core of alternative 1 (after the optional gap). -/
def matchOpenCore : List Char → Option (String × Nat)
  | '-' :: '(' :: _ => some ("-(", 2)
  | '(' :: _ => some ("(", 1)
  | _ => none

/-- Alternative 1a: `(?: |^)?(-?\()`.  The gap `(?: |^)` is optional: it is
tried first consuming a space (or the zero-width `^`), and on failure the
core is retried with an empty gap. -/
def matchOpenAlt (atStart : Bool) (cs : List Char) : Option (RawMatch × Nat) :=
  match cs with
  | ' ' :: rest =>
    (match matchOpenCore rest with
     | some (cap, n) => some (.gOpen cap, n + 1)
     | none =>
       -- `^` (only if at the start) or the empty gap: both retry at `cs`
       match matchOpenCore cs with
       | some (cap, n) => some (.gOpen cap, n)
       | none => none)
  | _ =>
    (match matchOpenCore cs with
     | some (cap, n) => some (.gOpen cap, n)
     | none => if atStart then none else none)

/-- Alternative 1b: `(\))`. -/
def matchCloseAlt : List Char → Option (RawMatch × Nat)
  | ')' :: _ => some (.gClose, 1)
  | _ => none

/-- Alternative 2: `(?: |^)([-!])` — the gap is mandatory here: a space, or
the start of the string. -/
def matchNegAlt (atStart : Bool) (cs : List Char) : Option (RawMatch × Nat) :=
  match cs with
  | ' ' :: c :: _ =>
    if c = '-' ∨ c = '!' then some (.negMark, 2)
    else
      if atStart then none else none
  | c :: _ =>
    if atStart ∧ (c = '-' ∨ c = '!') then some (.negMark, 1) else none
  | [] => none

/-- Embeds `\d{4}-\d{2}-\d{2}` with the optional greedy time/zone tail of
`dateTimeRegex`; returns the matched characters and the rest. -/
def scanDateTime (cs : List Char) : Option (List Char × List Char) :=
  match takeExactDigits 4 cs with
  | some (y, '-' :: r1) =>
    (match takeExactDigits 2 r1 with
     | some (mo, '-' :: r2) =>
       (match takeExactDigits 2 r2 with
        | some (d, r3) =>
          let dateChars := y ++ '-' :: mo ++ '-' :: d
          -- optional `[T ]\d{2}:\d{2}` …
          (match r3 with
           | sep :: r4 =>
             if sep = 'T' ∨ sep = ' ' then
               match takeExactDigits 2 r4 with
               | some (hh, ':' :: r5) =>
                 (match takeExactDigits 2 r5 with
                  | some (mi, r6) =>
                    let timeCore := sep :: hh ++ ':' :: mi
                    -- optional `:\d{2}(\.\d+)?`
                    let (secChars, r7) :=
                      match r6 with
                      | ':' :: r6a =>
                        (match takeExactDigits 2 r6a with
                         | some (ss, r6b) =>
                           (match r6b with
                            | '.' :: r6c =>
                              let frac := r6c.takeWhile Char.isDigit
                              if frac = [] then (':' :: ss, r6b)
                              else (':' :: ss ++ '.' :: frac, r6c.dropWhile Char.isDigit)
                            | _ => (':' :: ss, r6b))
                         | none => (([] : List Char), r6))
                      | _ => (([] : List Char), r6)
                    -- optional `Z|[+-]\d{2}:\d{2}`
                    let (tzChars, r8) :=
                      match r7 with
                      | 'Z' :: r7a => (['Z'], r7a)
                      | c :: r7a =>
                        if c = '+' ∨ c = '-' then
                          match takeExactDigits 2 r7a with
                          | some (th, ':' :: r7b) =>
                            (match takeExactDigits 2 r7b with
                             | some (tm, r7c) => (c :: th ++ ':' :: tm, r7c)
                             | none => (([] : List Char), r7))
                          | _ => (([] : List Char), r7)
                        else (([] : List Char), r7)
                      | [] => (([] : List Char), r7)
                    some (dateChars ++ timeCore ++ secChars ++ tzChars, r8)
                  | none => some (dateChars, r3))
               | _ => some (dateChars, r3)
             else some (dateChars, r3)
           | [] => some (dateChars, []))
        | none => none)
     | _ => none)
  | _ => none

/-- Embeds `\d{4}-\d{2}` (`monthRegex`). -/
def scanMonth (cs : List Char) : Option (List Char × List Char) :=
  match takeExactDigits 4 cs with
  | some (y, '-' :: r1) =>
    (match takeExactDigits 2 r1 with
     | some (mo, r2) => some (y ++ '-' :: mo, r2)
     | none => none)
  | _ => none

/-- Embeds `\d{4}` (`yearRegex`). -/
def scanYear (cs : List Char) : Option (List Char × List Char) :=
  match takeExactDigits 4 cs with
  | some (y, r) => some (y, r)
  | none => none

/-- Embeds `-?\d+(?:\.\d+)?` (`numberRegex`), greedy. -/
def scanNumber (cs : List Char) : Option (List Char × List Char) :=
  let (sgn, cs1) :=
    match cs with
    | '-' :: rest => ((['-'] : List Char), rest)
    | _ => (([] : List Char), cs)
  let ds := cs1.takeWhile Char.isDigit
  let r1 := cs1.dropWhile Char.isDigit
  if ds = [] then none
  else
    match r1 with
    | '.' :: r2 =>
      let fs := r2.takeWhile Char.isDigit
      if fs = [] then some (sgn ++ ds, r1)
      else some (sgn ++ ds ++ '.' :: fs, r2.dropWhile Char.isDigit)
    | _ => some (sgn ++ ds, r1)

/-- Embeds `\.{2}` between the two bounds of a range literal. -/
def scanDotDot : List Char → Option (List Char)
  | '.' :: '.' :: rest => some rest
  | _ => none

/-- One bound-pair `X..X` for a given bound scanner, tagging the captures. -/
def scanRangePair (scanB : List Char → Option (List Char × List Char))
    (tag : String → String → RangeVal) (cs : List Char) : Option (RangeVal × List Char) :=
  match scanB cs with
  | some (b1, r1) =>
    (match scanDotDot r1 with
     | some r2 =>
       (match scanB r2 with
        | some (b2, r3) => some (tag (String.mk b1) (String.mk b2), r3)
        | none => none)
     | none => none)
  | none => none

/-- Alternative 3: `(\w+)(?::|=)(?:dateRange|monthRange|yearRange|numberRange)`. -/
def matchRangeAlt (cs : List Char) : Option (RawMatch × Nat) :=
  let key := cs.takeWhile isWordChar
  let r0 := cs.dropWhile isWordChar
  if key = [] then none
  else
    match r0 with
    | op :: r1 =>
      if op = ':' ∨ op = '=' then
        let total := cs.length
        match scanRangePair scanDateTime RangeVal.dateR r1 with
        | some (rv, rest) => some (.rangeM (String.mk key) rv, total - rest.length)
        | none =>
          match scanRangePair scanMonth RangeVal.monthR r1 with
          | some (rv, rest) => some (.rangeM (String.mk key) rv, total - rest.length)
          | none =>
            match scanRangePair scanYear RangeVal.yearR r1 with
            | some (rv, rest) => some (.rangeM (String.mk key) rv, total - rest.length)
            | none =>
              match scanRangePair scanNumber RangeVal.numR r1 with
              | some (rv, rest) => some (.rangeM (String.mk key) rv, total - rest.length)
              | none => none
      else none
    | [] => none

/-- The operator alternation `(:|=|>=|<=|>|<)` of alternative 4 (ordered:
two-character spellings are listed before their one-character prefixes). -/
def scanCmpOp : List Char → Option (CmpOp × List Char)
  | ':' :: r => some (.colon, r)
  | '=' :: r => some (.eqS, r)
  | '>' :: '=' :: r => some (.geS, r)
  | '<' :: '=' :: r => some (.leS, r)
  | '>' :: r => some (.gtS, r)
  | '<' :: r => some (.ltS, r)
  | _ => none

/-- Alternative 4: `(\w+)(:|=|>=|<=|>|<)(?:dateTime|month|year|number)`. -/
def matchCompAlt (cs : List Char) : Option (RawMatch × Nat) :=
  let key := cs.takeWhile isWordChar
  let r0 := cs.dropWhile isWordChar
  if key = [] then none
  else
    match scanCmpOp r0 with
    | some (op, r1) =>
      let total := cs.length
      (match scanDateTime r1 with
       | some (v, rest) => some (.compM (String.mk key) op (.dateV (String.mk v)), total - rest.length)
       | none =>
         match scanMonth r1 with
         | some (v, rest) => some (.compM (String.mk key) op (.monthV (String.mk v)), total - rest.length)
         | none =>
           match scanYear r1 with
           | some (v, rest) => some (.compM (String.mk key) op (.yearV (String.mk v)), total - rest.length)
           | none =>
             match scanNumber r1 with
             | some (v, rest) => some (.compM (String.mk key) op (.numV (String.mk v)), total - rest.length)
             | none => none)
    | none => none

/-- The value part `(\w+|[&|])|"([^"]+)"|\/([^\/]+)\/` of alternative 5. -/
def scanTextValue (cs : List Char) : Option (TextVal × Nat) :=
  let w := cs.takeWhile isWordChar
  if w ≠ [] then some (.wordV (String.mk w), w.length)
  else
    match cs with
    | '&' :: _ => some (.wordV "&", 1)
    | '|' :: _ => some (.wordV "|", 1)
    | '"' :: r1 =>
      let body := r1.takeWhile (· ≠ '"')
      (match r1.dropWhile (· ≠ '"') with
       | '"' :: _ => if body = [] then none else some (.quoteV (String.mk body), body.length + 2)
       | _ => none)
    | '/' :: r1 =>
      let body := r1.takeWhile (· ≠ '/')
      (match r1.dropWhile (· ≠ '/') with
       | '/' :: _ => if body = [] then none else some (.regexV (String.mk body), body.length + 2)
       | _ => none)
    | _ => none

/-- Alternative 5: `(?:(\w+):)?(?:(\w+|[&|])|"([^"]+)"|\/([^\/]+)\/)`.
The optional key group is greedy; if the value part fails after it, the
engine backtracks and retries without the key. -/
def matchTextAlt (cs : List Char) : Option (RawMatch × Nat) :=
  let key := cs.takeWhile isWordChar
  let r0 := cs.dropWhile isWordChar
  match r0 with
  | ':' :: r1 =>
    if key ≠ [] then
      match scanTextValue r1 with
      | some (tv, n) => some (.textM (some (String.mk key)) tv, key.length + 1 + n)
      | none =>
        -- backtrack: optional key group not taken
        (match scanTextValue cs with
         | some (tv, n) => some (.textM none tv, n)
         | none => none)
    else
      (match scanTextValue cs with
       | some (tv, n) => some (.textM none tv, n)
       | none => none)
  | _ =>
    (match scanTextValue cs with
     | some (tv, n) => some (.textM none tv, n)
     | none => none)

/-- Alternative 6: `([^\s]+)` — a maximal non-whitespace run. -/
def matchOtherAlt (cs : List Char) : Option (RawMatch × Nat) :=
  let run := cs.takeWhile (fun c => ¬ isSpaceChar c)
  if run = [] then none else some (.otherM (String.mk run), run.length)

/-- One attempt of the whole alternation at a fixed position: the first
alternative that matches wins (`atStart` is true only at offset 0). -/
def matchAlt (atStart : Bool) (cs : List Char) : Option (RawMatch × Nat) :=
  match matchOpenAlt atStart cs with
  | some r => some r
  | none =>
    match matchCloseAlt cs with
    | some r => some r
    | none =>
      match matchNegAlt atStart cs with
      | some r => some r
      | none =>
        match matchRangeAlt cs with
        | some r => some r
        | none =>
          match matchCompAlt cs with
          | some r => some r
          | none =>
            match matchTextAlt cs with
            | some r => some r
            | none => matchOtherAlt cs

/-- Embeds `while ((match = regex.exec(query)))`: scan left to right from the
current position, collecting `(match.index, captures)` pairs; after a match
continue at `match.index + match[0].length`.  Every step removes at least
one character, so fuel `length + 1` (supplied by `scanQuery`) never runs
out; the fuel parameter only makes the recursion structural. -/
def scanAux : Nat → List Char → Nat → List (Nat × RawMatch)
  | 0, _, _ => []
  | Nat.succ _, [], _ => []
  | Nat.succ fuel, c :: rest, p =>
    match matchAlt (p = 0) (c :: rest) with
    | some (m, len) => (p, m) :: scanAux fuel (List.drop (len - 1) rest) (p + len)
    | none => scanAux fuel rest (p + 1)

/-- All matches of the tokenizer regex over a string. -/
def scanQuery (s : String) : List (Nat × RawMatch) :=
  scanAux (s.data.length + 1) s.data 0

/-! ## Token emission (the body of `tokenize`, src/index.ts lines 268-541)

Tokens and errors are accumulated in *reverse* order (`push` is `cons`,
`tokens.at(-1)` is the head, `pop` is `tail`) and reversed at the end. -/

/-- Embeds `open.startsWith("-") || open.startsWith("!")` (src/index.ts line 308):
test on the first character of the capture (which is `-(` or `(`; a `!` can
in fact never occur, since the capture group is `(-?\()`). -/
def strStartsNeg (s : String) : Bool :=
  match s.data with
  | c :: _ => c = '-' ∨ c = '!'
  | [] => false

/-- Embeds `value.toUpperCase()` on the ASCII strings that `\w+`/`[&|]` can match. -/
def asciiUpperStr (s : String) : String :=
  String.mk (s.data.map Char.toUpper)

/-- Embeds `tokens.at(-1)?.type === "negation"` on the reversed accumulator. -/
def isNegHead : List Token → Bool
  | .negation _ :: _ => true
  | _ => false

/-- Embeds `tokens.pop()` of a trailing negation (no-op when the last token is not a
negation; callers only use it guarded by `isNegHead`). -/
def popNegHead : List Token → List Token
  | .negation _ :: t => t
  | l => l

/-- Embeds `this.options?.validKeys && !this.options.validKeys.includes(key)`. -/
def keyRejected (opts : QueryParserOptions) (k : String) : Bool :=
  match opts.validKeys with
  | some vk => ¬ vk.contains k
  | none => false

/-- The `invalid_key` error object (`message: Invalid key: <key>`). -/
def mkInvalidKeyErr (k : String) (pos : Nat) (v : Option String) : ParseError :=
  ⟨.invalidKey, "Invalid key: " ++ k, pos, some k, v⟩

/-- Embeds `dateValue?.match(timeRegex)` (src/index.ts line 468): does the string
contain `[T ]\d{2}:\d{2}` anywhere (the rest of `timeRegex` is optional)? -/
def hasTimeAux : List Char → Bool
  | c1 :: c2 :: c3 :: c4 :: c5 :: c6 :: rest =>
    ((c1 = 'T' ∨ c1 = ' ') ∧ c2.isDigit ∧ c3.isDigit ∧ c4 = ':' ∧ c5.isDigit ∧ c6.isDigit) ||
      hasTimeAux (c2 :: c3 :: c4 :: c5 :: c6 :: rest)
  | _ => false

/-- Embeds `s.match(timeRegex)` as a Boolean. -/
def hasTimeStr (s : String) : Bool := hasTimeAux s.data

/-- The range branch (src/index.ts lines 361-417), after the `validKeys`
check: emit the two bound tokens (dates additionally wrapped in a synthetic
group, absorbing a preceding negation into the flag of the group). `revToks` is
the reversed token accumulator; an unparsable bound leaves it unchanged
(`continue`). -/
def processRange (revToks : List Token) (k : String) (rv : RangeVal) (pos : Nat) : List Token :=
  match rv with
  | .numR n1 n2 =>
    (match parseNum n1 with
     | none => revToks
     | some start =>
       match parseNum n2 with
       | none => revToks
       | some stop =>
         Token.keyword_numeric k .le stop pos ::
           Token.keyword_numeric k .ge start pos :: revToks)
  | _ =>
    let s1 := match rv with | .dateR d _ => d | .monthR m _ => m | .yearR y _ => y | .numR n _ => n
    let s2 := match rv with | .dateR _ d => d | .monthR _ m => m | .yearR _ y => y | .numR _ n => n
    (match jsNewDate s1 with
     | none => revToks
     | some start =>
       match jsNewDate s2 with
       | none => revToks
       | some stop0 =>
         -- `if (date1 && !date1.match(timeRegex)) … else if (month1) … else if (year1) …`
         let stop :=
           match rv with
           | .dateR d1 _ =>
             if hasTimeStr d1 then stop0
             else jsSetMillisecondsNeg1 (jsSetUTCDateSucc stop0)
           | .monthR _ _ => jsSetMillisecondsNeg1 (jsSetUTCMonthSucc stop0)
           | .yearR _ _ => jsSetMillisecondsNeg1 (jsSetUTCFullYearSucc stop0)
           | .numR _ _ => stop0
         let base :=
           if isNegHead revToks then Token.open_paren true pos :: popNegHead revToks
           else Token.open_paren false pos :: revToks
         Token.close_paren pos :: Token.keyword_date k .le stop pos ::
           Token.keyword_date k .ge start pos :: base)

/-- The keyed date-comparison branch (src/index.ts lines 454-517), after the
`validKeys` check: `<`/`>=` use the period start; `<=`/`>` its end;
`=`/`:` give one equality token when an explicit time is present and an
inclusive `[start, end]` pair in a synthetic group otherwise. -/
def processDateComparison (revToks : List Token) (k : String) (cop : CmpOp) (cv : CompVal)
    (pos : Nat) : List Token :=
  let s := match cv with | .dateV v => v | .monthV v => v | .yearV v => v | .numV v => v
  match jsNewDate s with
  | none => revToks
  | some start =>
    let op := cmpToNumeric cop
    if op = .lt ∨ op = .ge then Token.keyword_date k op start pos :: revToks
    else
      let hasTime := match cv with | .dateV v => hasTimeStr v | _ => false
      let stop :=
        match cv with
        | .dateV v =>
          if hasTimeStr v then start
          else jsSetMillisecondsNeg1 (jsSetUTCDateSucc start)
        | .monthV _ => jsSetMillisecondsNeg1 (jsSetUTCMonthSucc start)
        | .yearV _ => jsSetMillisecondsNeg1 (jsSetUTCFullYearSucc start)
        | .numV _ => start
      if op = .le ∨ op = .gt then Token.keyword_date k op stop pos :: revToks
      else if hasTime then Token.keyword_date k .eq start pos :: revToks
      else
        let base :=
          if isNegHead revToks then Token.open_paren true pos :: popNegHead revToks
          else Token.open_paren false pos :: revToks
        Token.close_paren pos :: Token.keyword_date k .le stop pos ::
          Token.keyword_date k .ge start pos :: base

/-- The error `value` for a rejected range key:
`date1 || date2 || month1 || month2 || year1 || year2` (undefined — `none` —
for a numeric range). -/
def rangeErrVal : RangeVal → Option String
  | .dateR d _ => some d
  | .monthR m _ => some m
  | .yearR y _ => some y
  | .numR _ _ => none

/-- The string payload of a text capture (`value || quote || regex`). -/
def textValStr : TextVal → String
  | .wordV s => s
  | .quoteV s => s
  | .regexV s => s

/-- The match-processing loop of `tokenize` (src/index.ts lines 268-541),
dispatching on the set capture groups of each match, with the token and
error accumulators in reverse order. -/
def processMatches (opts : QueryParserOptions) :
    List (Nat × RawMatch) → List Token → List ParseError → List Token × List ParseError
  | [], revToks, revErrs => (revToks.reverse, revErrs.reverse)
  | (pos, m) :: rest, revToks, revErrs =>
    match m with
    | .otherM v =>
      processMatches opts rest revToks
        (⟨.synErr, "Unexpected syntax", pos, none, some v⟩ :: revErrs)
    | .gOpen cap =>
      processMatches opts rest
        (Token.open_paren (strStartsNeg cap) pos :: revToks) revErrs
    | .gClose => processMatches opts rest (Token.close_paren pos :: revToks) revErrs
    | .negMark => processMatches opts rest (Token.negation pos :: revToks) revErrs
    | .textM (some k) tv =>
      if keyRejected opts k then
        processMatches opts rest (popNegHead revToks)
          (mkInvalidKeyErr k pos (some (textValStr tv)) :: revErrs)
      else
        (match tv with
         | .wordV v => processMatches opts rest (Token.keyword k v pos :: revToks) revErrs
         | .quoteV v => processMatches opts rest (Token.keyword_phrase k v pos :: revToks) revErrs
         | .regexV v => processMatches opts rest (Token.keyword_regex k v pos :: revToks) revErrs)
    | .rangeM k rv =>
      if keyRejected opts k then
        processMatches opts rest (popNegHead revToks)
          (mkInvalidKeyErr k pos (rangeErrVal rv) :: revErrs)
      else processMatches opts rest (processRange revToks k rv pos) revErrs
    | .compM k cop (.numV n) =>
      if keyRejected opts k then
        processMatches opts rest (popNegHead revToks)
          (mkInvalidKeyErr k pos (some n) :: revErrs)
      else
        (match parseNum n with
         | none => processMatches opts rest revToks revErrs
         | some v =>
           processMatches opts rest
             (Token.keyword_numeric k (cmpToNumeric cop) v pos :: revToks) revErrs)
    | .compM k cop (.dateV s) =>
      if keyRejected opts k then
        processMatches opts rest (popNegHead revToks)
          (mkInvalidKeyErr k pos (some s) :: revErrs)
      else processMatches opts rest (processDateComparison revToks k cop (.dateV s) pos) revErrs
    | .compM k cop (.monthV s) =>
      if keyRejected opts k then
        processMatches opts rest (popNegHead revToks)
          (mkInvalidKeyErr k pos (some s) :: revErrs)
      else processMatches opts rest (processDateComparison revToks k cop (.monthV s) pos) revErrs
    | .compM k cop (.yearV s) =>
      if keyRejected opts k then
        processMatches opts rest (popNegHead revToks)
          (mkInvalidKeyErr k pos (some s) :: revErrs)
      else processMatches opts rest (processDateComparison revToks k cop (.yearV s) pos) revErrs
    | .textM none tv =>
      (match tv with
       | .wordV v =>
         let upper := asciiUpperStr v
         (match strToLogical upper with
          | some lop => processMatches opts rest (Token.operator lop pos :: revToks) revErrs
          | none =>
            match opts.defaultKey with
            | some dk => processMatches opts rest (Token.keyword dk v pos :: revToks) revErrs
            | none => processMatches opts rest (Token.word v pos :: revToks) revErrs)
       | .quoteV v =>
         (match opts.defaultKey with
          | some dk => processMatches opts rest (Token.keyword_phrase dk v pos :: revToks) revErrs
          | none => processMatches opts rest (Token.phrase v pos :: revToks) revErrs)
       | .regexV v =>
         (match opts.defaultKey with
          | some dk => processMatches opts rest (Token.keyword_regex dk v pos :: revToks) revErrs
          | none => processMatches opts rest (Token.regex v pos :: revToks) revErrs))

/-! ## Post-pass cleanup (src/index.ts lines 544-558) -/

/-- Is the optional token an `open_paren`? -/
def isOpenTok : Option Token → Bool
  | some (.open_paren _ _) => true
  | _ => false

/-- Is the optional token a `close_paren`? -/
def isCloseTok : Option Token → Bool
  | some (.close_paren _) => true
  | _ => false

/-- Is the optional token an `operator`? -/
def isOpTok : Option Token → Bool
  | some (.operator _ _) => true
  | _ => false

/-- Is the optional token a `negation`? -/
def isNegTok : Option Token → Bool
  | some (.negation _) => true
  | _ => false

/-- The splice-and-reindex loop of the cleanup pass, one JS iteration per
fuel unit.  `i` is the loop index; `i--` followed by the `i++` of the loop leaves
`i` unchanged, so the first two branches re-run at the same index.  An index
of `-1` into `tokens` (possible in JS when `i = 0`) reads `undefined`, hence
the `1 ≤ i` guard on the negation lookbehind. -/
def cleanupAux : Nat → List Token → Nat → List Token
  | 0, ts, _ => ts
  | Nat.succ fuel, ts, i =>
    if i < ts.length then
      if isOpenTok ts[i]? ∧ isCloseTok ts[i + 1]? then
        let ts1 := (ts.eraseIdx i).eraseIdx i
        let ts2 := if 1 ≤ i ∧ isNegTok ts1[i - 1]? then ts1.eraseIdx (i - 1) else ts1
        cleanupAux fuel ts2 i
      else if isOpTok ts[i]? ∧ (isOpTok ts[i + 1]? ∨ isCloseTok ts[i + 1]?) then
        cleanupAux fuel (ts.eraseIdx i) i
      else if isOpenTok ts[i]? ∧ isOpTok ts[i + 1]? then
        cleanupAux fuel (ts.eraseIdx (i + 1)) (i + 1)
      else cleanupAux fuel ts (i + 1)
    else ts

/-- The cleanup pass: every iteration either removes a token or advances the
index, so `2 · length + 1` fuel always reaches the exit of the loop. -/
def cleanup (ts : List Token) : List Token :=
  cleanupAux (2 * ts.length + 1) ts 0

/-! ## Tokenizer entrypoint (src/index.ts lines 224-561) -/

/-- Embeds `tokenize`: scan the query; if the regex matches nowhere
(`!query.match(regex)`), report one syntax error spanning the whole query;
otherwise process the matches in order.  The cleanup pass runs either way. -/
def tokenize (opts : QueryParserOptions) (query : String) : List Token × List ParseError :=
  let ms := scanQuery query
  if ms = [] then
    (cleanup [], [⟨.synErr, "Unexpected syntax", 0, none, some query⟩])
  else
    let (toks, errs) := processMatches opts ms [] []
    (cleanup toks, errs)

/-! ## Tree Builder (`buildAST`, src/index.ts lines 563-653)

The source uses closures sharing a mutable `index` into `tokens`; the
embedding threads the unconsumed suffix of the token list instead and uses a
fuel parameter for the mutual recursion (the fuel chosen by `buildAST` is an
upper bound on the call depth, so it is never exhausted). -/

mutual

/-- Embeds `parseTerm` (src/index.ts lines 594-645): consume one token;
negations recurse and set `negated` on the result; a group parses an inner
expression and then consumes one token for the close parenthesis; leaves
become condition nodes; `operator`/`close_paren` fall through to the
`default: return null` arm (with the token already consumed). -/
def parseTermF : Nat → List Token → Option ASTNode × List Token
  | 0, ts => (none, ts)
  | Nat.succ _, [] => (none, [])
  | Nat.succ f, t :: rest =>
    match t with
    | .negation _ =>
      let r := parseTermF f rest
      (r.1.map ASTNode.withNegated, r.2)
    | .open_paren neg _ =>
      let r := parseExprF f rest
      let rem := r.2.drop 1
      (if neg then r.1.map ASTNode.withNegated else r.1, rem)
    | .keyword k v p => (some (.condition .keyword (some k) (.str v) p false none), rest)
    | .keyword_phrase k v p =>
      (some (.condition .keyword_phrase (some k) (.str v) p false none), rest)
    | .keyword_regex k v p =>
      (some (.condition .keyword_regex (some k) (.str v) p false none), rest)
    | .keyword_numeric k op v p =>
      (some (.condition .keyword_numeric (some k) (.num v) p false (some op)), rest)
    | .keyword_date k op v p =>
      (some (.condition .keyword_date (some k) (.date v) p false (some op)), rest)
    | .word v p => (some (.condition .word none (.str v) p false none), rest)
    | .phrase v p => (some (.condition .phrase none (.str v) p false none), rest)
    | .regex v p => (some (.condition .regex none (.str v) p false none), rest)
    | .operator _ _ => (none, rest)
    | .close_paren _ => (none, rest)

/-- Embeds `parseExpression` (src/index.ts lines 566-592): one term, then the
combination loop. -/
def parseExprF : Nat → List Token → Option ASTNode × List Token
  | 0, ts => (none, ts)
  | Nat.succ f, ts =>
    match parseTermF f ts with
    | (none, rem) => (none, rem)
    | (some left, rem) =>
      let r := parseLoopF f left rem
      (some r.1, r.2)

/-- The `while` loop of `parseExpression`: stop at `close_paren`; consume an
explicit `operator` or insert an implicit `AND` before any other token that
can start a term (every remaining kind can — `isStartOfTerm`), then fold the
next term into a left-nested binary node. -/
def parseLoopF : Nat → ASTNode → List Token → ASTNode × List Token
  | 0, left, ts => (left, ts)
  | Nat.succ _, left, [] => (left, [])
  | Nat.succ f, left, t :: rest =>
    match t with
    | .close_paren _ => (left, t :: rest)
    | .operator op _ =>
      (match parseTermF f rest with
       | (none, rem) => (left, rem)
       | (some right, rem) => parseLoopF f (.binary op left right false) rem)
    | _ =>
      (match parseTermF f (t :: rest) with
       | (none, rem) => (left, rem)
       | (some right, rem) => parseLoopF f (.binary .AND left right false) rem)

end

/-- Embeds `buildAST` (src/index.ts line 563): run `parseExpression` on the whole
token list (tokens left unconsumed by the top-level expression are ignored,
as in the source).  The fuel `4 · length + 8` exceeds the maximal call depth
(at most three nested calls are made per consumed token). -/
def buildAST (tokens : List Token) : Option ASTNode :=
  (parseExprF (4 * tokens.length + 8) tokens).1

/-! ## Condition Extractor (`extractConditions`, src/index.ts lines 655-682) -/

/-- Embeds `ast.token.includes("regex")`: true for `keyword_regex` and `regex`. -/
def tokenIncludesRegex : ConditionToken → Bool
  | .keyword_regex => true
  | .regex => true
  | _ => false

/-- The non-null case of `extractConditions`: thread
`isNegated = parentNegated || ast.negated === true` down the tree; a
condition node yields one flattened condition when its value is truthy. -/
def extractAux : ASTNode → Bool → List ASTCondition
  | .binary _ l r neg, parentNegated =>
    let isNeg := parentNegated || neg
    extractAux l isNeg ++ extractAux r isNeg
  | .condition tok key v pos neg op, parentNegated =>
    let isNeg := parentNegated || neg
    if isTruthy v then
      [⟨key, v, pos, isNeg, tokenIncludesRegex tok,
        tok = ConditionToken.keyword_numeric, tok = ConditionToken.keyword_date, op⟩]
    else []

/-- Embeds `extractConditions(ast, parentNegated = false)` including the
`if (!ast) return []` null case. -/
def extractConditions (ast : Option ASTNode) (parentNegated : Bool) : List ASTCondition :=
  match ast with
  | none => []
  | some a => extractAux a parentNegated

/-! ## Parse entrypoint (`_parse`, src/index.ts lines 699-716) -/

/-- Embeds `_parse` of `QueryParser` (timing omitted): normalize, tokenize, build
the tree, flatten, and assemble the result. -/
def parseQuery (opts : QueryParserOptions) (query : String) : ParseResult :=
  let q := normalizeQuery query
  let (tokens, errors) := tokenize opts q
  let ast := buildAST tokens
  let astConditions := extractConditions ast false
  ⟨tokens, ast, astConditions, ⟨q, decide (0 < errors.length), errors⟩⟩

/-! # Theorems

Helper lemmas first, then one theorem per claim (C1–C10), with witnesses
and counterexamples where required. -/

/-- Setting the `negated` flag twice is the same as setting it once. -/
theorem withNegated_withNegated (a : ASTNode) :
    a.withNegated.withNegated = a.withNegated := by
  cases a <;> rfl

/-- The combination loop returns immediately on an empty token list. -/
theorem parseLoopF_nil (f : Nat) (left : ASTNode) :
    parseLoopF f left [] = (left, []) := by
  cases f <;> rfl

/-- Consuming a chain of negation markers maps the parsed term through
`withNegated` (one fuel unit per marker). -/
theorem parseTermF_negChain (ps : List Nat) :
    ∀ (f : Nat) (ts : List Token), ps ≠ [] →
      parseTermF (f + ps.length) (ps.map Token.negation ++ ts) =
        ((parseTermF f ts).1.map ASTNode.withNegated, (parseTermF f ts).2) := by
  induction ps with
  | nil => intro f ts h; exact absurd rfl h
  | cons p ps ih =>
    intro f ts _
    by_cases hps : ps = []
    · subst hps
      show parseTermF (f + 1) (Token.negation p :: ts) = _
      simp [parseTermF]
    · have h1 : f + (p :: ps).length = (f + ps.length) + 1 := by
        simp [List.length_cons]
        omega
      rw [h1]
      show parseTermF ((f + ps.length) + 1)
          (Token.negation p :: (ps.map Token.negation ++ ts)) = _
      simp only [parseTermF]
      rw [ih f ts hps]
      cases h : (parseTermF f ts).1 with
      | none => simp
      | some node => simp [withNegated_withNegated]

/-- Embeds `parseTerm` on a simple group `( word )`: the open parenthesis parses
the inner expression and consumes the close parenthesis. -/
theorem parseTermF_group (m gp gq q : Nat) (w : String) :
    parseTermF (m + 3) [Token.open_paren false gp, Token.word w q, Token.close_paren gq] =
      (some (ASTNode.condition .word none (.str w) q false none), []) := by
  show parseTermF ((m + 2) + 1) _ = _
  simp only [parseTermF, parseExprF, parseLoopF]
  simp

/-- C8: negation marking is idempotent, not involutive: a term or group
preceded by any positive number of consecutive negation markers gets
`negated = true` in the AST — a doubled marker does not cancel out. -/
theorem claim_C8 (ps : List Nat) (w : String) (q : Nat) (hps : ps ≠ []) :
    (buildAST (ps.map Token.negation ++ [Token.word w q]) =
      some (ASTNode.condition .word none (.str w) q true none)) ∧
    ∀ (gp gq : Nat),
      buildAST (ps.map Token.negation ++
          [Token.open_paren false gp, Token.word w q, Token.close_paren gq]) =
        some (ASTNode.condition .word none (.str w) q true none) := by
  constructor
  · have hlen : (ps.map Token.negation ++ [Token.word w q]).length = ps.length + 1 := by
      simp
    show (parseExprF (4 * (ps.map Token.negation ++ [Token.word w q]).length + 8) _).1 = _
    rw [hlen]
    have hf : 4 * (ps.length + 1) + 8 = ((3 * ps.length + 11) + ps.length) + 1 := by omega
    rw [hf]
    simp only [parseExprF]
    rw [parseTermF_negChain ps (3 * ps.length + 11) _ hps]
    have hword : parseTermF (3 * ps.length + 11) [Token.word w q] =
        (some (ASTNode.condition .word none (.str w) q false none), []) := by
      have h10 : 3 * ps.length + 11 = (3 * ps.length + 10) + 1 := by omega
      rw [h10]
      simp [parseTermF]
    rw [hword]
    simp [ASTNode.withNegated, parseLoopF_nil]
  · intro gp gq
    have hlen : (ps.map Token.negation ++
        [Token.open_paren false gp, Token.word w q, Token.close_paren gq]).length =
        ps.length + 3 := by simp
    show (parseExprF (4 * (ps.map Token.negation ++ _).length + 8) _).1 = _
    rw [hlen]
    have hf : 4 * (ps.length + 3) + 8 = ((3 * ps.length + 19) + ps.length) + 1 := by omega
    rw [hf]
    simp only [parseExprF]
    rw [parseTermF_negChain ps (3 * ps.length + 19) _ hps]
    have hgrp : parseTermF (3 * ps.length + 19)
        [Token.open_paren false gp, Token.word w q, Token.close_paren gq] =
        (some (ASTNode.condition .word none (.str w) q false none), []) := by
      have h16 : 3 * ps.length + 19 = (3 * ps.length + 16) + 3 := by omega
      rw [h16]
      exact parseTermF_group _ _ _ _ _
    rw [hgrp]
    simp [ASTNode.withNegated, parseLoopF_nil]

/-- C8 witness: a doubly negated word still parses with `negated = true`. -/
theorem claim_C8_witness :
    ([0, 2] : List Nat) ≠ [] ∧
    buildAST ([0, 2].map Token.negation ++ [Token.word "hello" 4]) =
      some (ASTNode.condition .word none (.str "hello") 4 true none) :=
  ⟨by decide, (claim_C8 [0, 2] "hello" 4 (by decide)).1⟩

/-- C9: an input that normalizes to the empty string produces no tokens, a
null tree, no conditions, and exactly one syntax error ("Unexpected syntax",
position 0), so `hasErrors` is true even for the empty query. -/
theorem claim_C9 (opts : QueryParserOptions) (s : String)
    (h : normalizeQuery s = "") :
    parseQuery opts s =
      ⟨[], none, [], ⟨"", true,
        [⟨.synErr, "Unexpected syntax", 0, none, some ""⟩]⟩⟩ := by
  rw [parseQuery, h]
  rfl

/-- C9 witness: the all-whitespace query. -/
theorem claim_C9_witness :
    normalizeQuery "   " = "" ∧
    parseQuery ⟨none, none⟩ "   " =
      ⟨[], none, [], ⟨"", true,
        [⟨.synErr, "Unexpected syntax", 0, none, some ""⟩]⟩⟩ :=
  ⟨rfl, claim_C9 ⟨none, none⟩ "   " rfl⟩

/-- C10: the extractor drops every condition leaf whose value is falsy —
including the number `0` — so `price>=0` has a token and an AST leaf but no
entry in `astConditions`. -/
theorem claim_C10 :
    (∀ (tok : ConditionToken) (key : Option String) (v : QueryValue) (pos : Nat)
        (neg parent : Bool) (op : Option NumericOperator),
      isTruthy v = false →
      extractConditions (some (ASTNode.condition tok key v pos neg op)) parent = []) ∧
    ((parseQuery ⟨none, none⟩ "price>=0").tokens =
        [Token.keyword_numeric "price" .ge 0 0] ∧
      (parseQuery ⟨none, none⟩ "price>=0").ast =
        some (.condition .keyword_numeric (some "price") (.num 0) 0 false (some .ge)) ∧
      (parseQuery ⟨none, none⟩ "price>=0").astConditions = []) := by
  constructor
  · intro tok key v pos neg parent op h
    simp [extractConditions, extractAux, h]
  · exact ⟨by decide, by decide, by decide⟩

/-- C10 witness: the lower bound `0` is falsy and extracted to nothing. -/
theorem claim_C10_witness :
    isTruthy (QueryValue.num 0) = false ∧
    extractConditions
      (some (ASTNode.condition .keyword_numeric (some "price") (.num 0) 0 false (some .ge)))
      false = [] :=
  ⟨by decide,
    claim_C10.1 .keyword_numeric (some "price") (.num 0) 0 false false (some .ge) (by decide)⟩

/-- C7 (amended): a `(`, optionally prefixed by `-`, matches the group-open
alternative wherever it occurs — the whitespace-or-start gap in the pattern
is optional — so `a(b` does produce an `open_paren` token at offset 1. -/
theorem claim_C7_amended :
    (∀ (atStart : Bool) (cs : List Char),
      matchAlt atStart ('(' :: cs) = some (.gOpen "(", 1)) ∧
    (∀ (atStart : Bool) (cs : List Char),
      matchAlt atStart ('-' :: '(' :: cs) = some (.gOpen "-(", 2)) ∧
    (parseQuery ⟨none, none⟩ "a(b").tokens =
      [Token.word "a" 0, Token.open_paren false 1, Token.word "b" 2] :=
  ⟨fun _ _ => rfl, fun _ _ => rfl, by decide⟩

/-- C7 counterexample: in `a(b` the `(` is preceded by a word character, not
by whitespace or the string start, yet an `open_paren` token is produced. -/
theorem claim_C7_cex :
    Token.open_paren false 1 ∈ (parseQuery ⟨none, none⟩ "a(b").tokens := by
  decide

/-- C1: tree building is purely left-associative at a single precedence
level (`AND` and `OR` bind alike), and adjacent terms get an implicit `AND`:
`a OR b AND c` parses as `(a OR b) AND c` and `hello world` as an `AND`. -/
theorem claim_C1 (a b c : String) (p1 p2 p3 q1 q2 : Nat) (o1 o2 : LogicalOperator) :
    (buildAST [Token.word a p1, Token.operator o1 q1, Token.word b p2,
        Token.operator o2 q2, Token.word c p3] =
      some (.binary o2
        (.binary o1 (.condition .word none (.str a) p1 false none)
          (.condition .word none (.str b) p2 false none) false)
        (.condition .word none (.str c) p3 false none) false)) ∧
    (buildAST [Token.word a p1, Token.word b p2] =
      some (.binary .AND (.condition .word none (.str a) p1 false none)
        (.condition .word none (.str b) p2 false none) false)) ∧
    ((parseQuery ⟨none, none⟩ "a OR b AND c").ast =
      some (.binary .AND
        (.binary .OR (.condition .word none (.str "a") 0 false none)
          (.condition .word none (.str "b") 5 false none) false)
        (.condition .word none (.str "c") 11 false none) false)) ∧
    ((parseQuery ⟨none, none⟩ "hello world").ast =
      some (.binary .AND (.condition .word none (.str "hello") 0 false none)
        (.condition .word none (.str "world") 6 false none) false)) :=
  ⟨rfl, rfl, by decide, by decide⟩

/-- Once the composed negation flag is `true`, every condition extracted
below carries `isNegated = true`. -/
theorem extractAux_parent_true (a : ASTNode) :
    ∀ c ∈ extractAux a true, c.isNegated = true := by
  induction a with
  | binary op l r neg ihl ihr =>
    intro c hc
    simp only [extractAux, Bool.true_or, List.mem_append] at hc
    rcases hc with h | h
    · exact ihl c h
    · exact ihr c h
  | condition tok key v pos neg op =>
    intro c hc
    simp only [extractAux, Bool.true_or] at hc
    by_cases hv : isTruthy v
    · rw [if_pos hv] at hc
      simp only [List.mem_singleton] at hc
      subst hc
      rfl
    · rw [if_neg hv] at hc
      cases hc

/-- C2: a negated node makes every leaf below it report `isNegated = true`
(negation propagation), and on a leaf the extractor computes `isNegated` as
the OR of the inherited flag and the own flag of the leaf (composed negation). -/
theorem claim_C2 (a : ASTNode) (parent : Bool) :
    (a.negatedB = true →
      ∀ c ∈ extractConditions (some a) parent, c.isNegated = true) ∧
    (∀ (tok : ConditionToken) (key : Option String) (v : QueryValue) (pos : Nat)
        (neg : Bool) (op : Option NumericOperator),
      extractConditions (some (ASTNode.condition tok key v pos neg op)) parent =
        if isTruthy v then
          [⟨key, v, pos, parent || neg, tokenIncludesRegex tok,
            tok = ConditionToken.keyword_numeric, tok = ConditionToken.keyword_date, op⟩]
        else []) := by
  constructor
  · intro hneg c hc
    cases a with
    | binary op l r neg =>
      simp only [ASTNode.negatedB] at hneg
      subst hneg
      simp only [extractConditions, extractAux, Bool.or_true, List.mem_append] at hc
      rcases hc with h | h
      · exact extractAux_parent_true l c h
      · exact extractAux_parent_true r c h
    | condition tok key v pos neg op =>
      simp only [ASTNode.negatedB] at hneg
      subst hneg
      simp only [extractConditions, extractAux, Bool.or_true] at hc
      by_cases hv : isTruthy v
      · rw [if_pos hv] at hc
        simp only [List.mem_singleton] at hc
        subst hc
        rfl
      · rw [if_neg hv] at hc
        cases hc
  · intro tok key v pos neg op
    rfl

/-- C2 witness: a leaf with no negation marker of its own, inside a negated
group, is reported negated. -/
theorem claim_C2_witness :
    (ASTNode.binary .AND (.condition .word none (.str "hello") 2 false none)
        (.condition .word none (.str "world") 8 false none) true).negatedB = true ∧
    (⟨none, .str "hello", 2, true, false, false, false, none⟩ : ASTCondition) ∈
      extractConditions (some (ASTNode.binary .AND
        (.condition .word none (.str "hello") 2 false none)
        (.condition .word none (.str "world") 8 false none) true)) false ∧
    (⟨none, .str "hello", 2, true, false, false, false, none⟩ : ASTCondition).isNegated = true :=
  ⟨rfl, by decide,
    (claim_C2 (ASTNode.binary .AND (.condition .word none (.str "hello") 2 false none)
      (.condition .word none (.str "world") 8 false none) true) false).1 rfl
      ⟨none, .str "hello", 2, true, false, false, false, none⟩ (by decide)⟩

/-- C5 counterexample: with `validKeys = ["title"]` and
`defaultKey = "author"` the keyless term `hello` resolves to the key
`author`, which is not in the allow-list — yet the tokenizer emits a
`keyword` token and records no error: default-resolved keys bypass the
allow-list check. -/
theorem claim_C5_cex :
    (parseQuery ⟨some ["title"], some "author"⟩ "hello").tokens =
      [Token.keyword "author" "hello" 0] ∧
    (parseQuery ⟨some ["title"], some "author"⟩ "hello").metadata.errors = [] :=
  ⟨by decide, by decide⟩

/-- C5 (amended): when `validKeys` is configured and the *explicit* key of a term
is not a member, the tokenizer emits no token for the term, records exactly
one `invalid_key` error at the position of the term, and removes an immediately
preceding negation token (keyless terms promoted via `defaultKey` bypass the
check); `invalid:value` with `validKeys = ["title"]` gives empty tokens, a
null tree, `hasErrors = true` and one `invalid_key` error at position 0. -/
theorem claim_C5_amended :
    (∀ (opts : QueryParserOptions) (vk : List String) (k : String) (tv : TextVal)
        (pos : Nat) (rest : List (Nat × RawMatch)) (revToks : List Token)
        (revErrs : List ParseError),
      opts.validKeys = some vk → k ∉ vk →
      processMatches opts ((pos, .textM (some k) tv) :: rest) revToks revErrs =
        processMatches opts rest (popNegHead revToks)
          (mkInvalidKeyErr k pos (some (textValStr tv)) :: revErrs)) ∧
    parseQuery ⟨some ["title"], none⟩ "invalid:value" =
      ⟨[], none, [], ⟨"invalid:value", true,
        [⟨.invalidKey, "Invalid key: invalid", 0, some "invalid", some "value"⟩]⟩⟩ := by
  constructor
  · intro opts vk k tv pos rest revToks revErrs hvk hk
    have hrej : keyRejected opts k = true := by
      simp [keyRejected, hvk, hk]
    simp [processMatches, hrej]
  · decide

/-- C5 witness: one rejected keyed term, preceded by a negation token, turns
into exactly one error while the negation is dropped. -/
theorem claim_C5_witness :
    (⟨some ["title"], none⟩ : QueryParserOptions).validKeys = some ["title"] ∧
    "invalid" ∉ ["title"] ∧
    processMatches ⟨some ["title"], none⟩ [(1, .textM (some "invalid") (.wordV "value"))]
        [Token.negation 0] [] =
      processMatches ⟨some ["title"], none⟩ [] (popNegHead [Token.negation 0])
        (mkInvalidKeyErr "invalid" 1 (some (textValStr (.wordV "value"))) :: []) :=
  ⟨rfl, by decide,
    claim_C5_amended.1 ⟨some ["title"], none⟩ ["title"] "invalid" (.wordV "value") 1 []
      [Token.negation 0] [] rfl (by decide)⟩

/-- C3 counterexample: `price:0..200` produces the two range tokens, but
only ONE flattened condition — the lower bound `0` is falsy and dropped —
contradicting "exactly two leaf conditions in astConditions". -/
theorem claim_C3_cex :
    (parseQuery ⟨none, none⟩ "price:0..200").tokens =
      [Token.keyword_numeric "price" .ge 0 0, Token.keyword_numeric "price" .le 200 0] ∧
    (parseQuery ⟨none, none⟩ "price:0..200").astConditions =
      [⟨some "price", .num 200, 0, false, false, true, false, some .le⟩] :=
  ⟨by decide, by decide⟩

/-- C3 (amended): `key:A..B` yields exactly two `keyword_numeric` tokens
(`>=` A, `<=` B) combined by `AND` in the tree; both bounds appear in
`astConditions` (with `isNumeric = true`) provided neither bound is `0`
(a zero bound is excluded by the falsy-value filter). -/
theorem claim_C3_amended :
    ((parseQuery ⟨none, none⟩ "price:100..200").tokens =
        [Token.keyword_numeric "price" .ge 100 0, Token.keyword_numeric "price" .le 200 0] ∧
      (parseQuery ⟨none, none⟩ "price:100..200").ast =
        some (.binary .AND
          (.condition .keyword_numeric (some "price") (.num 100) 0 false (some .ge))
          (.condition .keyword_numeric (some "price") (.num 200) 0 false (some .le)) false) ∧
      (parseQuery ⟨none, none⟩ "price:100..200").astConditions =
        [⟨some "price", .num 100, 0, false, false, true, false, some .ge⟩,
          ⟨some "price", .num 200, 0, false, false, true, false, some .le⟩]) ∧
    (∀ (k : String) (A B : ℚ) (p1 p2 : Nat), A ≠ 0 → B ≠ 0 →
      buildAST [Token.keyword_numeric k .ge A p1, Token.keyword_numeric k .le B p2] =
        some (.binary .AND
          (.condition .keyword_numeric (some k) (.num A) p1 false (some .ge))
          (.condition .keyword_numeric (some k) (.num B) p2 false (some .le)) false) ∧
      extractConditions
          (buildAST [Token.keyword_numeric k .ge A p1, Token.keyword_numeric k .le B p2])
          false =
        [⟨some k, .num A, p1, false, false, true, false, some .ge⟩,
          ⟨some k, .num B, p2, false, false, true, false, some .le⟩]) := by
  constructor
  · exact ⟨by decide, by decide, by decide⟩
  · intro k A B p1 p2 hA hB
    have hast : buildAST [Token.keyword_numeric k .ge A p1, Token.keyword_numeric k .le B p2] =
        some (.binary .AND
          (.condition .keyword_numeric (some k) (.num A) p1 false (some .ge))
          (.condition .keyword_numeric (some k) (.num B) p2 false (some .le)) false) := rfl
    refine ⟨hast, ?_⟩
    rw [hast]
    simp [extractConditions, extractAux, isTruthy, tokenIncludesRegex, hA, hB]

/-- C3 witness: both bounds of `100..200` survive extraction. -/
theorem claim_C3_witness :
    (100 : ℚ) ≠ 0 ∧ (200 : ℚ) ≠ 0 ∧
    extractConditions
        (buildAST [Token.keyword_numeric "price" .ge 100 0,
          Token.keyword_numeric "price" .le 200 0]) false =
      [⟨some "price", .num 100, 0, false, false, true, false, some .ge⟩,
        ⟨some "price", .num 200, 0, false, false, true, false, some .le⟩] :=
  ⟨by norm_num, by norm_num,
    (claim_C3_amended.2 "price" 100 200 0 0 (by norm_num) (by norm_num)).2⟩

/-- C4: a keyed `:`/`=` date comparison with an explicit time yields a
single `keyword_date` equality token, while date-only, month and year
granularities expand to an inclusive `[start, end]` pair wrapped in a
synthetic parenthesis group; `created:2024` tokenizes to
`open_paren, created >= 2024-01-01T00:00:00.000Z,
created <= 2024-12-31T23:59:59.999Z, close_paren`. -/
theorem claim_C4 :
    (∀ (revToks : List Token) (k s : String) (t : Int) (pos : Nat) (co : CmpOp),
      co = CmpOp.colon ∨ co = CmpOp.eqS →
      hasTimeStr s = true → jsNewDate s = some t →
      processDateComparison revToks k co (.dateV s) pos =
        Token.keyword_date k .eq t pos :: revToks) ∧
    (∀ (revToks : List Token) (k s : String) (t : Int) (pos : Nat) (co : CmpOp),
      co = CmpOp.colon ∨ co = CmpOp.eqS →
      hasTimeStr s = false → jsNewDate s = some t → isNegHead revToks = false →
      processDateComparison revToks k co (.dateV s) pos =
        Token.close_paren pos ::
          Token.keyword_date k .le (jsSetMillisecondsNeg1 (jsSetUTCDateSucc t)) pos ::
          Token.keyword_date k .ge t pos :: Token.open_paren false pos :: revToks) ∧
    (∀ (revToks : List Token) (k s : String) (t : Int) (pos : Nat) (co : CmpOp),
      co = CmpOp.colon ∨ co = CmpOp.eqS →
      jsNewDate s = some t → isNegHead revToks = false →
      processDateComparison revToks k co (.monthV s) pos =
        Token.close_paren pos ::
          Token.keyword_date k .le (jsSetMillisecondsNeg1 (jsSetUTCMonthSucc t)) pos ::
          Token.keyword_date k .ge t pos :: Token.open_paren false pos :: revToks) ∧
    (∀ (revToks : List Token) (k s : String) (t : Int) (pos : Nat) (co : CmpOp),
      co = CmpOp.colon ∨ co = CmpOp.eqS →
      jsNewDate s = some t → isNegHead revToks = false →
      processDateComparison revToks k co (.yearV s) pos =
        Token.close_paren pos ::
          Token.keyword_date k .le (jsSetMillisecondsNeg1 (jsSetUTCFullYearSucc t)) pos ::
          Token.keyword_date k .ge t pos :: Token.open_paren false pos :: revToks) ∧
    (parseQuery ⟨none, none⟩ "created:2024").tokens =
      [Token.open_paren false 0,
        Token.keyword_date "created" .ge 1704067200000 0,
        Token.keyword_date "created" .le 1735689599999 0,
        Token.close_paren 0] := by
  refine ⟨?_, ?_, ?_, ?_, by decide⟩
  · intro revToks k s t pos co hco hT hjs
    rcases hco with rfl | rfl <;>
      simp [processDateComparison, hjs, hT, cmpToNumeric]
  · intro revToks k s t pos co hco hT hjs hneg
    rcases hco with rfl | rfl <;>
      simp [processDateComparison, hjs, hT, hneg, cmpToNumeric]
  · intro revToks k s t pos co hco hjs hneg
    rcases hco with rfl | rfl <;>
      simp [processDateComparison, hjs, hneg, cmpToNumeric]
  · intro revToks k s t pos co hco hjs hneg
    rcases hco with rfl | rfl <;>
      simp [processDateComparison, hjs, hneg, cmpToNumeric]

/-- C4 witness: the timestamp `2024-05-10 14:30` gives one equality token;
the year `2024` expands to the inclusive pair in a synthetic group. -/
theorem claim_C4_witness :
    hasTimeStr "2024-05-10 14:30" = true ∧
    jsNewDate "2024-05-10 14:30" = some 1715351400000 ∧
    processDateComparison [] "created" .colon (.dateV "2024-05-10 14:30") 0 =
      [Token.keyword_date "created" .eq 1715351400000 0] ∧
    jsNewDate "2024" = some 1704067200000 ∧
    jsSetMillisecondsNeg1 (jsSetUTCFullYearSucc 1704067200000) = 1735689599999 ∧
    processDateComparison [] "created" .colon (.yearV "2024") 0 =
      [Token.close_paren 0,
        Token.keyword_date "created" .le (jsSetMillisecondsNeg1 (jsSetUTCFullYearSucc 1704067200000)) 0,
        Token.keyword_date "created" .ge 1704067200000 0,
        Token.open_paren false 0] :=
  ⟨by decide, by decide,
    claim_C4.1 [] "created" "2024-05-10 14:30" 1715351400000 0 .colon (Or.inl rfl)
      (by decide) (by decide),
    by decide, by decide,
    claim_C4.2.2.2.1 [] "created" "2024" 1704067200000 0 .colon (Or.inl rfl)
      (by decide) rfl⟩

/-- The cleanup loop ends once the index reaches the list length. -/
theorem cleanupAux_exit (fuel : Nat) (ts : List Token) (i : Nat) (h : ts.length ≤ i) :
    cleanupAux fuel ts i = ts := by
  cases fuel with
  | zero => rfl
  | succ f =>
    simp only [cleanupAux]
    rw [if_neg (by omega)]

/-- A run of operators after a word collapses to the last operator of the run:
at index 1, each operator followed by another operator is spliced out. -/
theorem cleanupAux_opRun (os : List (LogicalOperator × Nat)) :
    ∀ (fuel : Nat) (o : LogicalOperator) (po : Nat) (a : String) (pa : Nat)
      (b : String) (pb : Nat), 2 * os.length + 3 ≤ fuel →
      cleanupAux fuel
        (Token.word a pa :: (os.map (fun x => Token.operator x.1 x.2) ++
          [Token.operator o po, Token.word b pb])) 1 =
      [Token.word a pa, Token.operator o po, Token.word b pb] := by
  induction os with
  | nil =>
    intro fuel o po a pa b pb hf
    obtain ⟨f, rfl⟩ : ∃ f, fuel = (f + 1) + 1 := ⟨fuel - 2, by omega⟩
    simp only [List.map_nil, List.nil_append]
    simp [cleanupAux, isOpenTok, isOpTok, isCloseTok, isNegTok]
    exact cleanupAux_exit f _ 3 (by simp)
  | cons hd tl ih =>
    intro fuel o po a pa b pb hf
    obtain ⟨f, rfl⟩ : ∃ f, fuel = f + 1 := ⟨fuel - 1, by omega⟩
    obtain ⟨oh, ph, R', hR⟩ : ∃ oh ph R',
        tl.map (fun x => Token.operator x.1 x.2) ++ [Token.operator o po, Token.word b pb] =
          Token.operator oh ph :: R' := by
      cases tl with
      | nil => exact ⟨o, po, [Token.word b pb], rfl⟩
      | cons x xs => exact ⟨x.1, x.2,
          xs.map (fun y => Token.operator y.1 y.2) ++ [Token.operator o po, Token.word b pb], rfl⟩
    simp only [List.map_cons, List.cons_append, hR]
    have hcond : 1 < (Token.word a pa :: Token.operator hd.1 hd.2 ::
        Token.operator oh ph :: R').length := by
      simp only [List.length_cons]
      omega
    simp [cleanupAux, hcond, isOpenTok, isOpTok, isCloseTok, isNegTok]
    rw [← hR]
    exact ih f o po a pa b pb (by simp only [List.length_cons] at hf; omega)

/-- C6 counterexample: in `a AND OR b` the cleanup keeps `OR` — the *last*
operator of the run — and drops the first (`AND` at offset 2), contradicting
"the first operator of the run survives". -/
theorem claim_C6_cex :
    (parseQuery ⟨none, none⟩ "a AND OR b").tokens =
      [Token.word "a" 0, Token.operator .OR 6, Token.word "b" 9] ∧
    Token.operator .AND 2 ∉ (parseQuery ⟨none, none⟩ "a AND OR b").tokens :=
  ⟨by decide, by decide⟩

/-- C6 (amended): a run of consecutive `operator` tokens is collapsed to the
*last* operator of the run — whenever an operator token is immediately
followed by another operator (or by a `close_paren`), the cleanup splices
out the earlier operator, so the final operator of the run survives. -/
theorem claim_C6_amended :
    (∀ (os : List (LogicalOperator × Nat)) (o : LogicalOperator) (po : Nat)
        (a : String) (pa : Nat) (b : String) (pb : Nat),
      cleanup (Token.word a pa :: (os.map (fun x => Token.operator x.1 x.2) ++
          [Token.operator o po, Token.word b pb])) =
        [Token.word a pa, Token.operator o po, Token.word b pb]) ∧
    (∀ (o : LogicalOperator) (po pc : Nat) (a : String) (pa : Nat),
      cleanup [Token.word a pa, Token.operator o po, Token.close_paren pc] =
        [Token.word a pa, Token.close_paren pc]) ∧
    (parseQuery ⟨none, none⟩ "a AND OR b").tokens =
      [Token.word "a" 0, Token.operator .OR 6, Token.word "b" 9] := by
  refine ⟨?_, ?_, by decide⟩
  · intro os o po a pa b pb
    show cleanupAux (2 * (Token.word a pa :: (os.map (fun x => Token.operator x.1 x.2) ++
        [Token.operator o po, Token.word b pb])).length + 1) _ 0 = _
    have hlen : (Token.word a pa :: (os.map (fun x => Token.operator x.1 x.2) ++
        [Token.operator o po, Token.word b pb])).length = os.length + 3 := by
      simp
    rw [hlen]
    obtain ⟨F, hF, hFge⟩ : ∃ F, 2 * (os.length + 3) + 1 = F + 1 ∧ 2 * os.length + 3 ≤ F :=
      ⟨2 * (os.length + 3), rfl, by omega⟩
    rw [hF]
    simp only [cleanupAux]
    rw [if_pos (by simp only [List.length_cons]; omega)]
    simp [isOpenTok, isOpTok, isCloseTok, isNegTok]
    exact cleanupAux_opRun os F o po a pa b pb hFge
  · intro o po pc a pa
    rfl
